import Mathlib

/-!
Verification of the Ozon-seller-API harvesting pipeline
(`stock_ozon.py`, `fbo_clusters.py`, `export_products_ozon.py`,
`ozon_product_info.py`).

Parsed JSON values are modelled by the inductive `Json`.  JSON numbers are
modelled as integers: every numeric literal the pipeline manipulates
(identifiers, SKUs, counts) is integral, and Python float-typed JSON nodes
are floating point and outside the model (numeric *strings* such as "12.5"
are handled exactly, via a rational-valued parser).
-/

/-- A parsed JSON value (the result of `resp.json()`).  Objects keep their
key/value pairs in insertion order, as Python dicts do; a well-formed parsed
object never has duplicate keys. -/
inductive Json where
  | null : Json
  | bool (b : Bool) : Json
  | num (n : Int) : Json
  | str (s : String) : Json
  | arr (xs : List Json) : Json
  | obj (kvs : List (String × Json)) : Json

namespace Json

mutual

def decEq : (a b : Json) → Decidable (a = b)
  | .null, .null => isTrue rfl
  | .bool a, .bool b =>
      if h : a = b then isTrue (by rw [h])
      else isFalse (by intro hc; cases hc; exact h rfl)
  | .num a, .num b =>
      if h : a = b then isTrue (by rw [h])
      else isFalse (by intro hc; cases hc; exact h rfl)
  | .str a, .str b =>
      if h : a = b then isTrue (by rw [h])
      else isFalse (by intro hc; cases hc; exact h rfl)
  | .arr a, .arr b =>
      match decEqList a b with
      | isTrue h => isTrue (by rw [h])
      | isFalse h => isFalse (by intro hc; cases hc; exact h rfl)
  | .obj a, .obj b =>
      match decEqKVs a b with
      | isTrue h => isTrue (by rw [h])
      | isFalse h => isFalse (by intro hc; cases hc; exact h rfl)
  | .null, .bool _ | .null, .num _ | .null, .str _ | .null, .arr _ | .null, .obj _
  | .bool _, .null | .bool _, .num _ | .bool _, .str _ | .bool _, .arr _ | .bool _, .obj _
  | .num _, .null | .num _, .bool _ | .num _, .str _ | .num _, .arr _ | .num _, .obj _
  | .str _, .null | .str _, .bool _ | .str _, .num _ | .str _, .arr _ | .str _, .obj _
  | .arr _, .null | .arr _, .bool _ | .arr _, .num _ | .arr _, .str _ | .arr _, .obj _
  | .obj _, .null | .obj _, .bool _ | .obj _, .num _ | .obj _, .str _ | .obj _, .arr _ =>
      isFalse (by intro hc; cases hc)

def decEqList : (a b : List Json) → Decidable (a = b)
  | [], [] => isTrue rfl
  | [], _ :: _ => isFalse (by intro hc; cases hc)
  | _ :: _, [] => isFalse (by intro hc; cases hc)
  | x :: xs, y :: ys =>
      match decEq x y with
      | isTrue h1 =>
          match decEqList xs ys with
          | isTrue h2 => isTrue (by rw [h1, h2])
          | isFalse h2 => isFalse (by intro hc; cases hc; exact h2 rfl)
      | isFalse h1 => isFalse (by intro hc; cases hc; exact h1 rfl)

def decEqKVs : (a b : List (String × Json)) → Decidable (a = b)
  | [], [] => isTrue rfl
  | [], _ :: _ => isFalse (by intro hc; cases hc)
  | _ :: _, [] => isFalse (by intro hc; cases hc)
  | (k, x) :: xs, (k', y) :: ys =>
      if hk : k = k' then
          match decEq x y with
          | isTrue h1 =>
              match decEqKVs xs ys with
              | isTrue h2 => isTrue (by rw [hk, h1, h2])
              | isFalse h2 => isFalse (by intro hc; cases hc; exact h2 rfl)
          | isFalse h1 => isFalse (by intro hc; cases hc; exact h1 rfl)
      else isFalse (by intro hc; cases hc; exact hk rfl)

end

instance : DecidableEq Json := decEq

/-- `d.get(k)` on a Python dict: the value at the first matching key,
`None` (= `Json.null`) when absent. -/
def pyGet (kvs : List (String × Json)) (k : String) : Json :=
  match kvs with
  | [] => .null
  | (k', v) :: tl => if k' = k then v else pyGet tl k

/-- `k in d` on a Python dict. -/
def pyMem (kvs : List (String × Json)) (k : String) : Bool :=
  match kvs with
  | [] => false
  | (k', _) :: tl => k' = k || pyMem tl k

/-- Python truthiness of a parsed JSON value (`bool(v)`). -/
def pyTruthy : Json → Bool
  | .null => false
  | .bool b => b
  | .num n => n ≠ 0
  | .str s => s ≠ ""
  | .arr xs => !xs.isEmpty
  | .obj kvs => !kvs.isEmpty

/-- Python `x or y` for parsed JSON values. -/
def pyOr (x y : Json) : Json := if pyTruthy x then x else y

/-- `isinstance(x, dict)`. -/
def isDict : Json → Bool
  | .obj _ => true
  | _ => false

/-- Strong induction principle for `Json`: the inductive hypothesis is
available for every element of an array and every value of an object. -/
theorem recOnMem {P : Json → Prop}
    (hnull : P .null) (hbool : ∀ b, P (.bool b)) (hnum : ∀ n, P (.num n))
    (hstr : ∀ s, P (.str s))
    (harr : ∀ xs, (∀ x ∈ xs, P x) → P (.arr xs))
    (hobj : ∀ kvs, (∀ p ∈ kvs, P (Prod.snd p)) → P (.obj kvs)) :
    ∀ j, P j
  | .null => hnull
  | .bool b => hbool b
  | .num n => hnum n
  | .str s => hstr s
  | .arr xs =>
      harr xs (fun x hx =>
        have : sizeOf x < 1 + sizeOf xs := by
          have h1 := List.sizeOf_lt_of_mem hx
          omega
        recOnMem hnull hbool hnum hstr harr hobj x)
  | .obj kvs =>
      hobj kvs (fun p hp =>
        have : sizeOf p.2 < 1 + sizeOf kvs := by
          have h1 := List.sizeOf_lt_of_mem hp
          have h2 : sizeOf p.2 < sizeOf p := by
            obtain ⟨k, v⟩ := p
            simp only [Prod.mk.sizeOf_spec]
            omega
          omega
        recOnMem hnull hbool hnum hstr harr hobj p.2)
termination_by j => sizeOf j

end Json

/-! ### `fbo_clusters._is_list_of_dicts` and `find_best_list_of_dicts` -/

/-- `_is_list_of_dicts(x)`: `x` is a list and is empty or has only dicts. -/
def is_list_of_dicts : Json → Bool
  | .arr xs => xs.all Json.isDict
  | _ => false

/-- The array elements of a JSON value (empty for non-arrays).  Used where
the source indexes `node[k]` after an `_is_list_of_dicts` guard. -/
def Json.elems : Json → List Json
  | .arr xs => xs
  | _ => []

/-- The priority key names of `find_best_list_of_dicts`, in order. -/
def priority_keys : List String := ["clusters", "items", "result", "data"]

/-- `f"{path}.{k}" if path else k` -/
def joinKey (path k : String) : String :=
  if path = "" then k else path ++ "." ++ k

/-- A candidate together with the path it was found at. -/
abbrev Cand := List Json × String

/-- The body of both `if len(cand) > len(best)` updates in
`find_best_list_of_dicts.walk`: replace the best candidate only when the
new one is strictly longer. -/
def considerCand (b : Cand) (c : Cand) : Cand :=
  if b.1.length < c.1.length then c else b

/-- The `for k in priority_keys` loop at a dict node of
`find_best_list_of_dicts.walk`. -/
def fbPrio (ks : List String) (kvs : List (String × Json)) (path : String)
    (b : Cand) : Cand :=
  match ks with
  | [] => b
  | k :: tl =>
      fbPrio tl kvs path
        (if Json.pyMem kvs k && is_list_of_dicts (Json.pyGet kvs k) then
          considerCand b ((Json.pyGet kvs k).elems, joinKey path k)
        else b)

mutual

/-- `find_best_list_of_dicts.walk`, threading the `(best, best_path)`
state explicitly. -/
def fbWalk : Json → String → Cand → Cand
  | .obj kvs, path, b => fbWalkKVs kvs path (fbPrio priority_keys kvs path b)
  | .arr xs, path, b =>
      if xs.all Json.isDict then
        considerCand b (xs, if path = "" then "<root_list>" else path)
      else fbWalkArr xs path 0 b
  | _, _, b => b

/-- The `for k, v in node.items(): walk(v, ...)` loop at a dict node. -/
def fbWalkKVs : List (String × Json) → String → Cand → Cand
  | [], _, b => b
  | (k, v) :: tl, path, b => fbWalkKVs tl path (fbWalk v (joinKey path k) b)

/-- The `for i, v in enumerate(node): walk(v, ...)` loop at a
non-candidate list node. -/
def fbWalkArr : List Json → String → Nat → Cand → Cand
  | [], _, _, b => b
  | x :: tl, path, i, b =>
      fbWalkArr tl path (i + 1) (fbWalk x (path ++ "[" ++ toString i ++ "]") b)

end

/-- `find_best_list_of_dicts(obj)`: best-length list of dicts and the path
where it was found. -/
def find_best_list_of_dicts (obj : Json) : Cand :=
  fbWalk obj "" ([], "")

/-- The candidates the priority-key loop examines at a dict node, in
priority-key order. -/
def fbPrioCands (ks : List String) (kvs : List (String × Json))
    (path : String) : List Cand :=
  match ks with
  | [] => []
  | k :: tl =>
      (if Json.pyMem kvs k && is_list_of_dicts (Json.pyGet kvs k) then
        [((Json.pyGet kvs k).elems, joinKey path k)]
      else []) ++ fbPrioCands tl kvs path

mutual

/-- The sequence of candidates examined by `find_best_list_of_dicts.walk`,
in examination order.  The walk is a fold of `considerCand` over this
sequence. -/
def fbCands : Json → String → List Cand
  | .obj kvs, path => fbPrioCands priority_keys kvs path ++ fbCandsKVs kvs path
  | .arr xs, path =>
      if xs.all Json.isDict then [(xs, if path = "" then "<root_list>" else path)]
      else fbCandsArr xs path 0
  | _, _ => []

def fbCandsKVs : List (String × Json) → String → List Cand
  | [], _ => []
  | (k, v) :: tl, path => fbCands v (joinKey path k) ++ fbCandsKVs tl path

def fbCandsArr : List Json → String → Nat → List Cand
  | [], _, _ => []
  | x :: tl, path, i =>
      fbCands x (path ++ "[" ++ toString i ++ "]") ++ fbCandsArr tl path (i + 1)

end

/-- Modelled from the spec ("Continue walking into all child values
regardless, since a better (or the only) candidate may be nested deeper"):
the candidate record lists occurring *anywhere* in a parsed response —
priority-key values at object nodes and homogeneous record lists at list
nodes — including candidates nested inside elements of another candidate
list.  This is the candidate universe claim C2 quantifies over; it differs
from `fbCands` exactly in recursing into the elements of a list that is
itself a candidate. -/
def specAllCandidates : Json → List (List Json)
  | .obj kvs => specPrioCands priority_keys kvs ++ specAllCandidatesKVs kvs
  | .arr xs =>
      (if xs.all Json.isDict then [xs] else []) ++ specAllCandidatesArr xs
  | _ => []
where
  specPrioCands (ks : List String) (kvs : List (String × Json)) :
      List (List Json) :=
    match ks with
    | [] => []
    | k :: tl =>
        (if Json.pyMem kvs k && is_list_of_dicts (Json.pyGet kvs k) then
          [(Json.pyGet kvs k).elems]
        else []) ++ specPrioCands tl kvs
  specAllCandidatesKVs : List (String × Json) → List (List Json)
    | [] => []
    | (_, v) :: tl => specAllCandidates v ++ specAllCandidatesKVs tl
  specAllCandidatesArr : List Json → List (List Json)
    | [] => []
    | x :: tl => specAllCandidates x ++ specAllCandidatesArr tl

/-! Relating the walk to its candidate sequence. -/

theorem fbPrio_eq_foldl (ks : List String) (kvs : List (String × Json))
    (path : String) (b : Cand) :
    fbPrio ks kvs path b = (fbPrioCands ks kvs path).foldl considerCand b := by
  induction ks generalizing b with
  | nil => rfl
  | cons k tl ih =>
      simp only [fbPrio, fbPrioCands]
      by_cases h : (Json.pyMem kvs k && is_list_of_dicts (Json.pyGet kvs k)) = true
      · simp [h, ih]
      · simp [h, ih]

theorem fbWalkKVs_eq_foldl (kvs : List (String × Json)) (path : String) (b : Cand)
    (hIH : ∀ p ∈ kvs, ∀ path' b',
      fbWalk (Prod.snd p) path' b' = (fbCands (Prod.snd p) path').foldl considerCand b') :
    fbWalkKVs kvs path b = (fbCandsKVs kvs path).foldl considerCand b := by
  induction kvs generalizing b with
  | nil => rfl
  | cons p tl ih =>
      obtain ⟨k, v⟩ := p
      simp only [fbWalkKVs, fbCandsKVs, List.foldl_append]
      rw [hIH ⟨k, v⟩ (List.mem_cons_self _ _) (joinKey path k) b]
      exact ih _ (fun q hq => hIH q (List.mem_cons_of_mem _ hq))

theorem fbWalkArr_eq_foldl (xs : List Json) (path : String) (i : Nat) (b : Cand)
    (hIH : ∀ x ∈ xs, ∀ path' b',
      fbWalk x path' b' = (fbCands x path').foldl considerCand b') :
    fbWalkArr xs path i b = (fbCandsArr xs path i).foldl considerCand b := by
  induction xs generalizing b i with
  | nil => rfl
  | cons x tl ih =>
      simp only [fbWalkArr, fbCandsArr, List.foldl_append]
      rw [hIH x (List.mem_cons_self _ _) _ b]
      exact ih _ _ (fun q hq => hIH q (List.mem_cons_of_mem _ hq))

/-- The walk of `find_best_list_of_dicts` is the fold of `considerCand`
over the candidate sequence `fbCands`. -/
theorem fbWalk_eq_foldl (j : Json) :
    ∀ path b, fbWalk j path b = (fbCands j path).foldl considerCand b := by
  induction j using Json.recOnMem with
  | hnull => intro path b; rfl
  | hbool b' => intro path b; rfl
  | hnum n => intro path b; rfl
  | hstr s => intro path b; rfl
  | harr xs ih =>
      intro path b
      simp only [fbWalk, fbCands]
      by_cases h : xs.all Json.isDict
      · simp [h]
      · simp only [h, if_neg, Bool.false_eq_true, if_false]
        exact fbWalkArr_eq_foldl xs path 0 b ih
  | hobj kvs ih =>
      intro path b
      simp only [fbWalk, fbCands, List.foldl_append]
      rw [fbPrio_eq_foldl]
      exact fbWalkKVs_eq_foldl kvs path _ ih

/-! Facts about folding `considerCand`. -/

theorem considerCand_length_le (b c : Cand) :
    b.1.length ≤ (considerCand b c).1.length := by
  unfold considerCand
  by_cases h : b.1.length < c.1.length
  · simp only [h, if_true]
    omega
  · simp only [h, if_false]
    exact Nat.le_refl _

theorem foldl_considerCand_le (cs : List Cand) (b : Cand) :
    b.1.length ≤ (cs.foldl considerCand b).1.length := by
  induction cs generalizing b with
  | nil => exact Nat.le_refl _
  | cons c tl ih =>
      exact Nat.le_trans (considerCand_length_le b c) (ih (considerCand b c))

theorem foldl_considerCand_max (cs : List Cand) (b : Cand) :
    ∀ c ∈ cs, c.1.length ≤ (cs.foldl considerCand b).1.length := by
  induction cs generalizing b with
  | nil => intro c hc; cases hc
  | cons x tl ih =>
      intro c hc
      rcases List.mem_cons.mp hc with h | h
      · subst h
        refine Nat.le_trans ?_ (foldl_considerCand_le tl (considerCand b c))
        unfold considerCand
        by_cases hlt : b.1.length < c.1.length
        · simp only [hlt, if_true]
          exact Nat.le_refl _
        · simp only [hlt, if_false]
          omega
      · exact ih (considerCand b x) c h

theorem foldl_considerCand_mem (cs : List Cand) (b : Cand) :
    cs.foldl considerCand b = b ∨ cs.foldl considerCand b ∈ cs := by
  induction cs generalizing b with
  | nil => exact Or.inl rfl
  | cons x tl ih =>
      rcases ih (considerCand b x) with h | h
      · rw [List.foldl_cons, h]
        unfold considerCand
        by_cases hlt : b.1.length < x.1.length
        · simp [hlt]
        · simp [hlt]
      · exact Or.inr (List.mem_cons_of_mem _ h)

theorem foldl_considerCand_id (cs : List Cand) (b : Cand)
    (h : ∀ c ∈ cs, c.1.length ≤ b.1.length) : cs.foldl considerCand b = b := by
  induction cs with
  | nil => rfl
  | cons x tl ih =>
      have hx : ¬ b.1.length < x.1.length := by
        have := h x (List.mem_cons_self _ _)
        omega
      rw [List.foldl_cons]
      unfold considerCand
      simp only [hx, if_false]
      exact ih (fun c hc => h c (List.mem_cons_of_mem _ hc))

/-! ### Claims C2 and C4: the schema-tolerant extractor -/

/-- A response in which a longer record list is nested inside an element of
a shorter candidate list: `{"a": [ {"items": [{"x":1}, {"x":2}]} ]}`. -/
def exNested : Json :=
  .obj [("a", .arr [.obj [("items",
    .arr [.obj [("x", .num 1)], .obj [("x", .num 2)]])]])]

/-- C2, counterexample.  On `exNested` the walk records the outer
single-element list found at key "a" as a candidate and does not descend
into its element, so the two-record list under the priority key "items" is
never examined: the returned candidate has length 1 while a candidate of
length 2 occurs in the structure (in the universe of candidates described
by the claim, `specAllCandidates`). -/
theorem find_best_not_maximal_over_nested_candidates :
    find_best_list_of_dicts exNested =
      ([.obj [("items", .arr [.obj [("x", .num 1)], .obj [("x", .num 2)]])]], "a")
    ∧ [Json.obj [("x", .num 1)], .obj [("x", .num 2)]] ∈ specAllCandidates exNested
    ∧ (find_best_list_of_dicts exNested).1.length <
        [Json.obj [("x", .num 1)], .obj [("x", .num 2)]].length := by
  refine ⟨by decide, by decide, by decide⟩

/-- C2, amended.  The walk of `find_best_list_of_dicts` continues into all
child values at object nodes, but does not descend into the elements of a
list node that is itself a homogeneous record-list candidate.  The returned
candidate is of maximal length among the candidates this walk examines
(`fbCands`), and is either empty or one of them. -/
theorem find_best_maximal_over_walked_candidates (j : Json) :
    (∀ c ∈ fbCands j "", c.1.length ≤ (find_best_list_of_dicts j).1.length)
    ∧ ((find_best_list_of_dicts j).1 = [] ∨
        find_best_list_of_dicts j ∈ fbCands j "") := by
  constructor
  · intro c hc
    rw [find_best_list_of_dicts, fbWalk_eq_foldl]
    exact foldl_considerCand_max _ _ c hc
  · rw [find_best_list_of_dicts, fbWalk_eq_foldl]
    rcases foldl_considerCand_mem (fbCands j "") ([], "") with h | h
    · exact Or.inl (by rw [h])
    · exact Or.inr h

/-- C2, witness for the amended theorem at `exNested`: the outer candidate
found at key "a" is among the walked candidates, and its length is bounded
by the length of the returned candidate. -/
theorem find_best_maximal_over_walked_candidates_witness :
    ([Json.obj [("items", .arr [.obj [("x", .num 1)], .obj [("x", .num 2)]])]], "a")
      ∈ fbCands exNested ""
    ∧ ([Json.obj [("items", .arr [.obj [("x", .num 1)], .obj [("x", .num 2)]])]]).length
        ≤ (find_best_list_of_dicts exNested).1.length :=
  ⟨by decide,
    (find_best_maximal_over_walked_candidates exNested).1
      ([Json.obj [("items", .arr [.obj [("x", .num 1)], .obj [("x", .num 2)]])]], "a")
      (by decide)⟩

/-- A response with two equal-length candidate lists under different keys,
the later priority key first in dict order:
`{"data": [{"x":1},{"x":2}], "items": [{"y":1},{"y":2}]}`. -/
def exTie : Json :=
  .obj [("data", .arr [.obj [("x", .num 1)], .obj [("x", .num 2)]]),
        ("items", .arr [.obj [("y", .num 1)], .obj [("y", .num 2)]])]

/-- C4.  The extractor returns the candidate found first in the depth-first
walk: if the examination sequence splits as `pre ++ c :: post` where every
earlier candidate is strictly shorter than `c` and no later candidate is
strictly longer, then the walk returns `c`'s record list (and, when `c` is
nonempty, `c` itself, path included) — a later candidate replaces the
current best only when strictly longer. -/
theorem find_best_first_found_wins (j : Json) (c : Cand) (pre post : List Cand)
    (hsplit : fbCands j "" = pre ++ c :: post)
    (hpre : ∀ x ∈ pre, x.1.length < c.1.length)
    (hpost : ∀ x ∈ post, x.1.length ≤ c.1.length) :
    (find_best_list_of_dicts j).1 = c.1
    ∧ (0 < c.1.length → find_best_list_of_dicts j = c) := by
  rw [find_best_list_of_dicts, fbWalk_eq_foldl, hsplit]
  rw [List.foldl_append, List.foldl_cons]
  by_cases h0 : 0 < c.1.length
  · have hr : (List.foldl considerCand ([], "") pre).1.length < c.1.length := by
      rcases foldl_considerCand_mem pre ([], "") with h | h
      · rw [h]; exact h0
      · exact hpre _ h
    have hstep : considerCand (List.foldl considerCand ([], "") pre) c = c := by
      unfold considerCand
      exact if_pos hr
    rw [hstep, foldl_considerCand_id post c hpost]
    exact ⟨rfl, fun _ => rfl⟩
  · have hc0 : c.1.length = 0 := by omega
    have hpre0 : pre = [] := by
      cases pre with
      | nil => rfl
      | cons x tl =>
          have := hpre x (List.mem_cons_self _ _)
          omega
    subst hpre0
    simp only [List.foldl_nil]
    have hstep : considerCand ([], "") c = ([], "") := by
      unfold considerCand
      rw [if_neg]
      show ¬(([] : List Json).length < c.1.length)
      simp only [List.length_nil]
      omega
    rw [hstep, foldl_considerCand_id post ([], "")
      (fun x hx => by
        show x.1.length ≤ ([] : List Json).length
        simp only [List.length_nil]
        have := hpost x hx
        omega)]
    have : c.1 = [] := List.length_eq_zero.mp hc0
    exact ⟨by simp [this], fun hpos => absurd hpos h0⟩

/-- C4, witness at `exTie`: both candidate lists have length 2; the
priority key "items" is examined before "data" even though "data" comes
first in the object, and its list is returned with its path. -/
theorem find_best_first_found_wins_witness :
    find_best_list_of_dicts exTie =
      ([Json.obj [("y", .num 1)], .obj [("y", .num 2)]], "items") :=
  (find_best_first_found_wins exTie
      ([Json.obj [("y", .num 1)], .obj [("y", .num 2)]], "items")
      []
      [([Json.obj [("x", .num 1)], .obj [("x", .num 2)]], "data"),
       ([Json.obj [("x", .num 1)], .obj [("x", .num 2)]], "data"),
       ([Json.obj [("y", .num 1)], .obj [("y", .num 2)]], "items")]
      (by decide) (by decide) (by decide)).2 (by decide)

/-! ### Decimal rendering of integers (Python `str` of an `int`) -/

/-- The character of a decimal digit. -/
def digitChar (d : Nat) : Char :=
  if d = 0 then '0' else if d = 1 then '1' else if d = 2 then '2'
  else if d = 3 then '3' else if d = 4 then '4' else if d = 5 then '5'
  else if d = 6 then '6' else if d = 7 then '7' else if d = 8 then '8'
  else if d = 9 then '9' else '*'

/-- Decimal digit characters of a natural number, most significant first.
The first argument is recursion fuel (any value above the number works,
see `natChars`). -/
def natCharsAux : Nat → Nat → List Char
  | 0, _ => []
  | f + 1, n =>
      if n < 10 then [digitChar n]
      else natCharsAux f (n / 10) ++ [digitChar (n % 10)]

/-- Decimal digit characters of a natural number. -/
def natChars (n : Nat) : List Char := natCharsAux (n + 1) n

/-- Characters of Python `str(i)` for an integer `i`. -/
def intChars (i : Int) : List Char :=
  if i < 0 then '-' :: natChars i.natAbs else natChars i.natAbs

/-- Python `str(i)` for an integer `i`. -/
def intStr (i : Int) : String := ⟨intChars i⟩

/-- The numeric value of a list of decimal digit characters. -/
def digitsVal (cs : List Char) : Nat :=
  cs.foldl (fun a c => 10 * a + (c.toNat - 48)) 0

theorem digitsVal_append_digit (cs : List Char) (c : Char) :
    digitsVal (cs ++ [c]) = 10 * digitsVal cs + (c.toNat - 48) := by
  unfold digitsVal
  rw [List.foldl_append]
  rfl

theorem digitChar_val (d : Nat) (h : d < 10) :
    (digitChar d).toNat - 48 = d := by
  interval_cases d <;> rfl

theorem digitChar_isDigit (d : Nat) (h : d < 10) :
    (digitChar d).isDigit = true := by
  interval_cases d <;> rfl

theorem natCharsAux_val (f : Nat) : ∀ n ≤ f, digitsVal (natCharsAux (f + 1) n) = n := by
  induction f with
  | zero =>
      intro n hn
      interval_cases n
      decide
  | succ f ih =>
      intro n hn
      rw [natCharsAux]
      by_cases h : n < 10
      · simp only [h, if_true]
        show digitsVal ([] ++ [digitChar n]) = n
        rw [digitsVal_append_digit, digitChar_val n h]
        simp [digitsVal]
      · simp only [h, if_false]
        rw [digitsVal_append_digit, digitChar_val (n % 10) (Nat.mod_lt _ (by omega))]
        have hdiv : n / 10 ≤ f := by omega
        rw [ih (n / 10) hdiv]
        omega

theorem natChars_val (n : Nat) : digitsVal (natChars n) = n :=
  natCharsAux_val n n (Nat.le_refl n)

theorem natCharsAux_digits (f n : Nat) :
    ∀ c ∈ natCharsAux f n, c.isDigit = true := by
  induction f generalizing n with
  | zero => intro c hc; cases hc
  | succ f ih =>
      intro c hc
      rw [natCharsAux] at hc
      by_cases h : n < 10
      · simp only [h, if_true, List.mem_singleton] at hc
        subst hc
        exact digitChar_isDigit n h
      · simp only [h, if_false, List.mem_append, List.mem_singleton] at hc
        rcases hc with hc | hc
        · exact ih (n / 10) c hc
        · subst hc
          exact digitChar_isDigit (n % 10) (Nat.mod_lt _ (by omega))

theorem natChars_ne_nil (n : Nat) : natChars n ≠ [] := by
  unfold natChars natCharsAux
  by_cases h : n < 10
  · simp [h]
  · simp [h]

theorem natChars_injective : Function.Injective natChars := by
  intro a b h
  have := natChars_val a
  rw [h, natChars_val] at this
  omega

theorem intChars_injective : Function.Injective intChars := by
  intro a b h
  unfold intChars at h
  by_cases ha : a < 0 <;> by_cases hb : b < 0
  · simp only [ha, hb, if_true, List.cons.injEq, true_and] at h
    have := natChars_injective h
    omega
  · simp only [ha, hb, if_true, if_false] at h
    exfalso
    have hd : ('-' : Char) ∈ natChars b.natAbs := by
      rw [← h]; exact List.mem_cons_self _ _
    have := natCharsAux_digits (b.natAbs + 1) b.natAbs '-' hd
    simp [Char.isDigit] at this
  · simp only [ha, hb, if_false, if_true] at h
    exfalso
    have hd : ('-' : Char) ∈ natChars a.natAbs := by
      rw [h]; exact List.mem_cons_self _ _
    have := natCharsAux_digits (a.natAbs + 1) a.natAbs '-' hd
    simp [Char.isDigit] at this
  · simp only [ha, hb, if_false] at h
    have := natChars_injective h
    omega

theorem intStr_injective : Function.Injective intStr := by
  intro a b h
  exact intChars_injective (congrArg String.data h)

/-! ### Python `str()` of parsed JSON values -/

mutual

/-- Python `repr` of a parsed JSON value.  String escaping inside `repr` is
not modelled (no claim depends on it: containers and strings rendered here
only ever flow into digit-string tests, which any bracketed or quoted
rendering fails). -/
def pyRepr : Json → String
  | .null => "None"
  | .bool true => "True"
  | .bool false => "False"
  | .num n => intStr n
  | .str s => "\x27" ++ s ++ "\x27"
  | .arr xs => "[" ++ pyReprList xs ++ "]"
  | .obj kvs => "\x7b" ++ pyReprKVs kvs ++ "\x7d"

def pyReprList : List Json → String
  | [] => ""
  | [x] => pyRepr x
  | x :: tl => pyRepr x ++ ", " ++ pyReprList tl

def pyReprKVs : List (String × Json) → String
  | [] => ""
  | [(k, v)] => "\x27" ++ k ++ "\x27: " ++ pyRepr v
  | (k, v) :: tl => "\x27" ++ k ++ "\x27: " ++ pyRepr v ++ ", " ++ pyReprKVs tl

end

/-- Python `str()` of a parsed JSON value. -/
def pyStr : Json → String
  | .str s => s
  | j => pyRepr j

/-! ### Claim C3: the paginated collector (`get_all_product_ids`) -/

/-- One page as observed by the `get_all_product_ids` loop, after the
envelope accesses `result = (data or {}).get("result") or {}`,
`items = result.get("items") or []` and
`last_id = str(result.get("last_id") or "")`: the list of item records and
the next cursor. -/
structure Page where
  items : List (List (String × Json))
  lastId : String

/-- The product ids one page contributes: `str(it["product_id"])` for each
item whose `product_id` is present and not `None`. -/
def pageRecords (p : Page) : List String :=
  p.items.filterMap (fun it =>
    match Json.pyGet it "product_id" with
    | .null => none
    | v => some (pyStr v))

/-- `get_all_product_ids` (identical loop in `stock_ozon.py` and
`export_products_ozon.py`/`ozon_product_info.py`), with the server
modelled as the finite sequence of pages it returns, consumed in order:
stop with no contribution when a page has no items, otherwise contribute
the page's records and stop when its cursor is empty. -/
def get_all_product_ids : List Page → List String
  | [] => []
  | p :: rest =>
      if p.items = [] then []
      else pageRecords p ++ (if p.lastId = "" then [] else get_all_product_ids rest)

/-- C3.  Fed a finite sequence of pages in which every page before the
terminal one has nonempty items and a nonempty cursor and the terminal
page has empty items or an empty cursor, the collector terminates with
exactly the concatenation, in page order, of the records of every page up
to and including the terminal one (the terminal page's records included
when it stops on an empty cursor), ignoring anything after the terminal
page: it stops as soon as a page returns zero items or an empty cursor. -/
theorem get_all_product_ids_concat (ps : List Page) (last : Page)
    (extra : List Page)
    (hmid : ∀ p ∈ ps, p.items ≠ [] ∧ p.lastId ≠ "")
    (hlast : last.items = [] ∨ last.lastId = "") :
    get_all_product_ids (ps ++ last :: extra) =
      ((ps ++ [last]).map pageRecords).flatten := by
  induction ps with
  | nil =>
      simp only [List.nil_append, List.map_cons, List.map_nil, List.flatten]
      rw [get_all_product_ids]
      by_cases hi : last.items = []
      · simp only [hi, if_true]
        have : pageRecords last = [] := by
          unfold pageRecords
          rw [hi]
          rfl
        simp [this]
      · have hc : last.lastId = "" := by
          rcases hlast with h | h
          · exact absurd h hi
          · exact h
        simp [hi, hc]
  | cons p tl ih =>
      have hp := hmid p (List.mem_cons_self _ _)
      simp only [List.cons_append, List.map_cons, List.flatten_cons]
      rw [get_all_product_ids]
      rw [if_neg hp.1, if_neg hp.2, ih (fun q hq => hmid q (List.mem_cons_of_mem _ hq))]

/-- C3, witness: two full pages followed by a terminal page with an empty
cursor, then a junk page that is never requested; the collector returns
the six ids of the three real pages in order. -/
theorem get_all_product_ids_concat_witness :
    get_all_product_ids
      [⟨[[("product_id", .num 11)], [("product_id", .num 12)]], "c1"⟩,
       ⟨[[("product_id", .num 21)], [("x", .null)]], "c2"⟩,
       ⟨[[("product_id", .str "31")], [("product_id", .num 32)]], ""⟩,
       ⟨[[("product_id", .num 99)]], "c9"⟩] =
      ["11", "12", "21", "31", "32"] :=
  (get_all_product_ids_concat
      [⟨[[("product_id", .num 11)], [("product_id", .num 12)]], "c1"⟩,
       ⟨[[("product_id", .num 21)], [("x", .null)]], "c2"⟩]
      ⟨[[("product_id", .str "31")], [("product_id", .num 32)]], ""⟩
      [⟨[[("product_id", .num 99)]], "c9"⟩]
      (by decide) (by decide)).trans (by decide)


/-! ### Claim C7: SKU normalization and derivation (`stock_ozon.py`) -/

/-- Python `s.strip()`: drop leading and trailing whitespace. -/
def pyStrip (s : String) : String :=
  ⟨((s.data.dropWhile Char.isWhitespace).reverse.dropWhile Char.isWhitespace).reverse⟩

/-- Python `s.lower()` (ASCII). -/
def pyLower (s : String) : String := ⟨s.data.map Char.toLower⟩

/-- Python `s.isdigit()`: nonempty and all characters decimal digits. -/
def pyIsdigit (s : String) : Bool :=
  !s.data.isEmpty && s.data.all Char.isDigit

/-- `stock_ozon.normalize_sku(v)`: `None` for `None`; otherwise
`s = str(v).strip()` must be all digits and denote a positive integer. -/
def normalize_sku (v : Json) : Option Int :=
  if v = .null then none
  else if pyIsdigit (pyStrip (pyStr v)) then
    if (digitsVal (pyStrip (pyStr v)).data : Int) > 0 then
      some (digitsVal (pyStrip (pyStr v)).data)
    else none
  else none

/-- `stock_ozon.extract_sku_from_item(it)`: try `it["sku"]`, then
`it["sku_id"]`, then the first element of the list `it["skus"]`; the first
value that normalizes wins. -/
def extract_sku_from_item (it : List (String × Json)) : Option Int :=
  match normalize_sku (Json.pyGet it "sku") with
  | some n => some n
  | none =>
      match normalize_sku (Json.pyGet it "sku_id") with
      | some n => some n
      | none =>
          match Json.pyGet it "skus" with
          | .arr (x :: _) => normalize_sku x
          | _ => none

/-- Follows the spec's words ("trying a primary SKU field, then an
alternate field, then the first element of a SKU-list field"): the ordered
candidate values SKU derivation consults. -/
def specSkuCandidates (it : List (String × Json)) : List Json :=
  [Json.pyGet it "sku", Json.pyGet it "sku_id"] ++
    (match Json.pyGet it "skus" with
     | .arr (x :: _) => [x]
     | _ => [])

/-- C7.  SKU normalization returns only positive integers, behaves as the
spec's examples require ("123" ↦ 123; "0", "-5", "abc", None ↦ absent),
and SKU derivation returns the first of the candidate values — primary
field "sku", alternate field "sku_id", first element of the list field
"skus" — that normalizes to a positive integer, absent if none does. -/
theorem normalize_sku_and_extract_spec :
    (∀ v n, normalize_sku v = some n → 0 < n)
    ∧ normalize_sku (.str "123") = some 123
    ∧ normalize_sku (.str "0") = none
    ∧ normalize_sku (.str "-5") = none
    ∧ normalize_sku (.str "abc") = none
    ∧ normalize_sku .null = none
    ∧ ∀ it, extract_sku_from_item it =
        (specSkuCandidates it).findSome? normalize_sku := by
  refine ⟨?_, by decide, by decide, by decide, by decide, by decide, ?_⟩
  · intro v n h
    unfold normalize_sku at h
    split_ifs at h with h1 h2 h3
    all_goals
      first
        | exact Option.noConfusion h
        | (have hn := Option.some.inj h
           omega)
  · intro it
    unfold extract_sku_from_item specSkuCandidates
    cases h1 : normalize_sku (Json.pyGet it "sku") with
    | some n => simp [List.findSome?_cons, h1]
    | none =>
        cases h2 : normalize_sku (Json.pyGet it "sku_id") with
        | some n => simp [List.findSome?_cons, h1, h2]
        | none =>
            cases hv : Json.pyGet it "skus" with
            | arr xs =>
                cases xs with
                | nil => simp [List.findSome?_cons, h1, h2]
                | cons x tl =>
                    cases hx : normalize_sku x <;>
                      simp [List.findSome?_cons, h1, h2, hx]
            | null => simp [List.findSome?_cons, h1, h2]
            | bool b => simp [List.findSome?_cons, h1, h2]
            | num n => simp [List.findSome?_cons, h1, h2]
            | str s => simp [List.findSome?_cons, h1, h2]
            | obj kvs => simp [List.findSome?_cons, h1, h2]

/-- C7, witness: normalization maps the string " 77 " (stripped) to the
positive SKU 77, and derivation on `{"sku": None, "sku_id": "0",
"skus": ["42"]}` falls through to the list field. -/
theorem normalize_sku_and_extract_spec_witness :
    (0 : Int) < 77
    ∧ extract_sku_from_item
        [("sku", .null), ("sku_id", .str "0"), ("skus", .arr [.str "42"])] =
      some 42 :=
  ⟨normalize_sku_and_extract_spec.1 (.str " 77 ") 77 (by decide), by decide⟩

/-! ### Claim C6: packaging volume (`calc_volume_m3`, `calc_volume`) -/

/-- Numeric value of a float literal without sign: digits with at most one
decimal point (Python also accepts exponent/infinity/nan forms; they are
not modelled, no claim uses them). -/
def pyFloatOfChars (cs : List Char) : Option ℚ :=
  let intPart := cs.takeWhile Char.isDigit
  let rest := cs.dropWhile Char.isDigit
  match rest with
  | [] => if intPart.isEmpty then none else some (digitsVal intPart)
  | '.' :: frac =>
      if frac.all Char.isDigit && !(intPart.isEmpty && frac.isEmpty) then
        some ((digitsVal intPart : ℚ) + (digitsVal frac : ℚ) / (10 : ℚ) ^ frac.length)
      else none
  | _ => none

/-- Python `float(s)` on a string: surrounding whitespace stripped,
optional sign, then `pyFloatOfChars`. -/
def pyFloatOfString (s : String) : Option ℚ :=
  match (pyStrip s).data with
  | '-' :: cs => (pyFloatOfChars cs).map (fun q => -q)
  | '+' :: cs => pyFloatOfChars cs
  | cs => pyFloatOfChars cs

/-- Python `float(v)` on a parsed JSON value, as an exact rational; `none`
where `float()` raises.  This is also `to_float_safe`, which maps `None`
and every raising input to `None`. -/
def pyFloatOpt : Json → Option ℚ
  | .null => none
  | .bool b => some (if b then 1 else 0)
  | .num n => some (n : ℚ)
  | .str s => pyFloatOfString s
  | .arr _ => none
  | .obj _ => none

/-- `export_products_ozon.calc_volume_m3(depth, width, height,
dimension_unit)`.  `(dimension_unit or "")` is the identity on strings
(the argument is typed `str` and every call site supplies one). -/
def calc_volume_m3 (depth width height : Json) (dimension_unit : String) :
    Option ℚ :=
  match pyFloatOpt depth, pyFloatOpt width, pyFloatOpt height with
  | some d, some w, some h =>
      let unit := pyStrip (pyLower dimension_unit)
      let v := d * w * h
      if unit = "mm" then some (v / 1000000000)
      else if unit = "cm" then some (v / 1000000)
      else if unit = "m" then some v
      else some v
  | _, _, _ => none

/-- `ozon_product_info.calc_volume(depth, width, height, unit)`: the same
computation, duplicated in that script (a `float()` failure on any of the
three dimensions yields `None`). -/
def calc_volume (depth width height : Json) (unit : String) : Option ℚ :=
  match pyFloatOpt depth, pyFloatOpt width, pyFloatOpt height with
  | some d, some w, some h =>
      let u := pyStrip (pyLower unit)
      let v := d * w * h
      if u = "mm" then some (v / 1000000000)
      else if u = "cm" then some (v / 1000000)
      else if u = "m" then some v
      else some v
  | _, _, _ => none

/-- C6.  For all dimension inputs, both volume functions return
`d*w*h/1e9` for unit "mm", `d*w*h/1e6` for "cm", `d*w*h` unchanged for
"m", the raw product unconverted for any unrecognized unit, and an absent
value whenever any of the three dimensions is non-numeric. -/
theorem calc_volume_unit_conversion (d w h : Json) (u : String) :
    (∀ vd vw vh : ℚ, pyFloatOpt d = some vd → pyFloatOpt w = some vw →
      pyFloatOpt h = some vh →
      calc_volume_m3 d w h "mm" = some (vd * vw * vh / 1000000000)
      ∧ calc_volume_m3 d w h "cm" = some (vd * vw * vh / 1000000)
      ∧ calc_volume_m3 d w h "m" = some (vd * vw * vh)
      ∧ (pyStrip (pyLower u) ∉ (["mm", "cm", "m"] : List String) →
          calc_volume_m3 d w h u = some (vd * vw * vh))
      ∧ calc_volume d w h "mm" = some (vd * vw * vh / 1000000000)
      ∧ calc_volume d w h "cm" = some (vd * vw * vh / 1000000)
      ∧ calc_volume d w h "m" = some (vd * vw * vh)
      ∧ (pyStrip (pyLower u) ∉ (["mm", "cm", "m"] : List String) →
          calc_volume d w h u = some (vd * vw * vh)))
    ∧ ((pyFloatOpt d = none ∨ pyFloatOpt w = none ∨ pyFloatOpt h = none) →
        calc_volume_m3 d w h u = none ∧ calc_volume d w h u = none) := by
  constructor
  · intro vd vw vh hd hw hh
    have hm3 : ∀ u2, calc_volume_m3 d w h u2 =
        (if pyStrip (pyLower u2) = "mm" then some (vd * vw * vh / 1000000000)
         else if pyStrip (pyLower u2) = "cm" then some (vd * vw * vh / 1000000)
         else if pyStrip (pyLower u2) = "m" then some (vd * vw * vh)
         else some (vd * vw * vh)) := by
      intro u2
      unfold calc_volume_m3
      rw [hd, hw, hh]
    have hcv : ∀ u2, calc_volume d w h u2 =
        (if pyStrip (pyLower u2) = "mm" then some (vd * vw * vh / 1000000000)
         else if pyStrip (pyLower u2) = "cm" then some (vd * vw * vh / 1000000)
         else if pyStrip (pyLower u2) = "m" then some (vd * vw * vh)
         else some (vd * vw * vh)) := by
      intro u2
      unfold calc_volume
      rw [hd, hw, hh]
    have emm : pyStrip (pyLower "mm") = "mm" := by decide
    have ecm : pyStrip (pyLower "cm") = "cm" := by decide
    have em : pyStrip (pyLower "m") = "m" := by decide
    refine ⟨?_, ?_, ?_, ?_, ?_, ?_, ?_, ?_⟩
    · rw [hm3 "mm"]
      simp [emm]
    · rw [hm3 "cm"]
      simp [ecm]
    · rw [hm3 "m"]
      simp [em]
    · intro hu
      simp only [List.mem_cons, List.mem_singleton, not_or] at hu
      rw [hm3 u]
      simp [hu.1, hu.2.1, hu.2.2.1]
    · rw [hcv "mm"]
      simp [emm]
    · rw [hcv "cm"]
      simp [ecm]
    · rw [hcv "m"]
      simp [em]
    · intro hu
      simp only [List.mem_cons, List.mem_singleton, not_or] at hu
      rw [hcv u]
      simp [hu.1, hu.2.1, hu.2.2.1]
  · intro hnone
    cases hd : pyFloatOpt d <;> cases hw : pyFloatOpt w <;>
      cases hh : pyFloatOpt h <;>
        simp_all [calc_volume_m3, calc_volume]

/-- C6, witness: `(3, "4", 5)` in "mm" converts by `/1e9`, the
unrecognized unit "Ft" returns the raw product for `calc_volume`, and a
`None` depth makes `calc_volume_m3` absent. -/
theorem calc_volume_unit_conversion_witness :
    calc_volume_m3 (.num 3) (.str "4") (.num 5) "mm"
      = some ((3 : ℚ) * 4 * 5 / 1000000000)
    ∧ calc_volume (.num 3) (.str "4") (.num 5) "Ft"
      = some ((3 : ℚ) * 4 * 5)
    ∧ calc_volume_m3 .null (.num 1) (.num 1) "cm" = none :=
  ⟨((calc_volume_unit_conversion (.num 3) (.str "4") (.num 5) "Ft").1
      3 4 5 (by decide) (by decide) (by decide)).1,
   (((calc_volume_unit_conversion (.num 3) (.str "4") (.num 5) "Ft").1
      3 4 5 (by decide) (by decide) (by decide)).2.2.2.2.2.2.2 (by decide)),
   ((calc_volume_unit_conversion .null (.num 1) (.num 1) "cm").2
      (Or.inl (by decide))).1⟩

/-! ### Claim C9: the request client (`post_ozon`) -/

/-- An HTTP response as `post_ozon` observes it: status code, the parsed
JSON body when `resp.json()` succeeds, and the raw text. -/
structure HttpResp where
  status : Nat
  jsonBody : Option Json
  text : String

/-- `try: data = resp.json() except: data = resp.text` — structured data
when the body parses, raw text otherwise. -/
def respData (r : HttpResp) : Json ⊕ String :=
  match r.jsonBody with
  | some j => Sum.inl j
  | none => Sum.inr r.text

/-- The statuses retried with backoff: `(429, 500, 502, 503, 504)`. -/
def transientStatus (s : Nat) : Bool :=
  s = 429 || s = 500 || s = 502 || s = 503 || s = 504

/-- `resp.ok` of the `requests` library: status below 400. -/
def respOk (s : Nat) : Bool := s < 400

/-- Outcome of `post_ozon`: the parsed-or-raw body on success, the
`RuntimeError(f"HTTP {status} {path}: {data}")` carrying status and body
on a non-ok non-transient status, or the exhaustion error once the retry
budget is spent. -/
inductive PostResult where
  | success (data : Json ⊕ String)
  | failed (status : Nat) (data : Json ⊕ String)
  | exhausted

/-- `post_ozon` (identical in all four scripts up to the default retry
count), with the server modelled as the finite sequence of responses it
gives to successive attempts.  Returns the outcome and the backoff sleeps
performed, in order: on a transient status, sleep the current backoff,
double it capped at 30, and retry.  A stream shorter than the attempts
the loop makes is modelled as exhaustion (never reached under a claim). -/
def post_ozon : Nat → ℚ → List HttpResp → PostResult × List ℚ
  | 0, _, _ => (.exhausted, [])
  | _ + 1, _, [] => (.exhausted, [])
  | retries + 1, backoff, r :: rest =>
      if transientStatus r.status then
        let res := post_ozon retries (min (backoff * 2) 30) rest
        (res.1, backoff :: res.2)
      else if respOk r.status then (.success (respData r), [])
      else (.failed r.status (respData r), [])

/-- C9.  On a response whose status is neither ok nor transient, the
client fails on that very attempt with the status and the
parsed-when-possible-else-raw body, performs no backoff sleep, and never
touches the rest of the stream (the conclusion holds for every
continuation `rest` and every remaining retry budget). -/
theorem post_ozon_non_transient_fails_immediately
    (retries : Nat) (backoff : ℚ) (r : HttpResp) (rest : List HttpResp)
    (hok : respOk r.status = false) (htr : transientStatus r.status = false) :
    post_ozon (retries + 1) backoff (r :: rest) =
      (.failed r.status (respData r), [])
    ∧ (∀ j, r.jsonBody = some j → respData r = Sum.inl j)
    ∧ (r.jsonBody = none → respData r = Sum.inr r.text) := by
  refine ⟨?_, ?_, ?_⟩
  · rw [post_ozon]
    rw [htr]
    simp [hok]
  · intro j hj
    unfold respData
    rw [hj]
  · intro hj
    unfold respData
    rw [hj]

/-- C9, witness: a 404 with a parsed JSON body fails immediately with
that body, sleeping never, with a 200 still queued behind it. -/
theorem post_ozon_non_transient_fails_immediately_witness :
    post_ozon 6 1
      [⟨404, some (.obj [("code", .num 16)]), "denied"⟩,
       ⟨200, some (.obj []), ""⟩] =
      (.failed 404 (Sum.inl (.obj [("code", .num 16)])), []) :=
  (post_ozon_non_transient_fails_immediately 5 1
      ⟨404, some (.obj [("code", .num 16)]), "denied"⟩
      [⟨200, some (.obj []), ""⟩]
      (by decide) (by decide)).1

/-! ### Claims C5, C10, C1: the compact stock export (`stock_ozon.py`) -/

/-- Python `int(v)` on a parsed JSON value: `none` where `int()` raises.
String forms modelled: surrounding whitespace, optional sign, digits
(underscore separators are not modelled; no claim uses them). -/
def pyIntOpt : Json → Option Int
  | .num n => some n
  | .bool b => some (if b then 1 else 0)
  | .str s =>
      match (pyStrip s).data with
      | '-' :: cs =>
          if !cs.isEmpty && cs.all Char.isDigit then
            some (-(digitsVal cs : Int))
          else none
      | '+' :: cs =>
          if !cs.isEmpty && cs.all Char.isDigit then
            some (digitsVal cs)
          else none
      | cs =>
          if !cs.isEmpty && cs.all Char.isDigit then
            some (digitsVal cs)
          else none
  | _ => none

/-- `int(x or 0)` as applied to the stock counts.  (`int()` raising on a
truthy unparseable value is not modelled; stock counts are numbers or
absent in every claim.) -/
def pyIntOr0 (v : Json) : Int :=
  (pyIntOpt (Json.pyOr v (.num 0))).getD 0

/-- `d.get(k, {})` on the SKU→metadata dict, modelled as an association
list (a Python dict has distinct keys; lookup takes the first match). -/
def metaGet (m : List (Int × List (String × Json))) (k : Int) :
    List (String × Json) :=
  match m with
  | [] => []
  | (k2, v) :: tl => if k2 = k then v else metaGet tl k

/-- `stock_ozon.compact_row(row, fallback_meta)`. -/
def compact_row (row fallback_meta : List (String × Json)) : Json :=
  .obj [("sku", Json.pyGet row "sku"),
        ("name", Json.pyOr (Json.pyGet row "name")
          (Json.pyGet fallback_meta "name")),
        ("offer_id", Json.pyOr (Json.pyGet row "offer_id")
          (Json.pyGet fallback_meta "offer_id")),
        ("warehouse_id", Json.pyGet row "warehouse_id"),
        ("warehouse_name", Json.pyGet row "warehouse_name"),
        ("cluster_id", Json.pyGet row "cluster_id"),
        ("cluster_name", Json.pyGet row "cluster_name"),
        ("stock", .num (pyIntOr0 (Json.pyGet row "available_stock_count")
          + pyIntOr0 (Json.pyGet row "valid_stock_count")))]

/-- The integer SKU under which `export_stocks_compact` groups a stock
row: `row.get("sku")`, skipping the row when it is `None` or `int()`
raises. -/
def rowSku (row : List (String × Json)) : Option Int :=
  match Json.pyGet row "sku" with
  | .null => none
  | v => pyIntOpt v

/-- One iteration of the row-grouping loop of `export_stocks_compact`:
append the compacted row to its SKU's group.  `grouped` is modelled as a
total function from SKU to the accumulated group; under this model the
`if sku_int not in grouped: grouped[sku_int] = []` initialization is the
identity, and keys outside the requested batch are never read back. -/
def groupRow (m : List (Int × List (String × Json)))
    (g : Int → List Json) (row : List (String × Json)) : Int → List Json :=
  match rowSku row with
  | none => g
  | some skuInt =>
      fun s => if s = skuInt then g s ++ [compact_row row (metaGet m skuInt)]
        else g s

/-- The per-batch body of `export_stocks_compact`: group the fetched rows
by reported SKU, then write `{"sku": str(s), "items": grouped.get(s, [])}`
for each SKU of the batch, in batch order. -/
def exportBatch (m : List (Int × List (String × Json)))
    (batch : List Int) (rows : List (List (String × Json))) : List Json :=
  let grouped := rows.foldl (groupRow m) (fun _ => [])
  batch.map (fun s => .obj [("sku", .str (intStr s)),
    ("items", .arr (grouped s))])

/-- Body of `chunked(lst, n)`, structured on recursion fuel; any fuel
above `l.length` computes all slices (`chunkedAux_flatten`). -/
def chunkedAux : Nat → List α → Nat → List (List α)
  | 0, _, _ => []
  | f + 1, l, n =>
      if l.isEmpty || n == 0 then []
      else l.take n :: chunkedAux f (l.drop n) n

/-- `chunked(lst, n)`: successive slices of length `n`, the last possibly
shorter.  (Python raises on `n = 0`; every call site passes 99 or 1000.) -/
def chunked (l : List α) (n : Nat) : List (List α) :=
  chunkedAux (l.length + 1) l n

/-- The sequence of per-SKU objects `export_stocks_compact` streams into
the output array: the SKUs are the sorted keys of `sku_meta`, cut into
`chunk_size` batches; `fetch batch` stands for what
`get_stocks_for_skus(batch)` returns for that batch. -/
def exportStocksObjs (m : List (Int × List (String × Json)))
    (fetch : List Int → List (List (String × Json)))
    (chunk_size : Nat) : List Json :=
  ((chunked ((m.map Prod.fst).insertionSort (· ≤ ·)) chunk_size).map
    (fun b => exportBatch m b (fetch b))).flatten

/-- `export_stocks_compact`: the streamed output file is the JSON array
of the per-SKU objects (written as `"[\n"`, the comma-separated
serialized objects, `"\n]\n"`). -/
def export_stocks_compact (m : List (Int × List (String × Json)))
    (fetch : List Int → List (List (String × Json)))
    (chunk_size : Nat) : Json :=
  .arr (exportStocksObjs m fetch chunk_size)

/-- The string value of an output object's "sku" field. -/
def objSkuStr : Json → String
  | .obj kvs =>
      match Json.pyGet kvs "sku" with
      | .str t => t
      | _ => ""
  | _ => ""

theorem chunkedAux_flatten {α : Type} (n : Nat) (hn : 0 < n) :
    ∀ (f : Nat) (l : List α), l.length < f → (chunkedAux f l n).flatten = l := by
  intro f
  induction f with
  | zero => intro l hl; omega
  | succ f ih =>
      intro l hl
      rw [chunkedAux]
      by_cases he : l.isEmpty
      · simp only [he, Bool.true_or, if_true, List.flatten_nil]
        exact (List.isEmpty_iff.mp he).symm
      · have hn0 : (n == 0) = false := by simp; omega
        simp only [he, hn0, Bool.false_or, Bool.or_false, Bool.false_eq_true,
          if_false, List.flatten_cons]
        rw [ih (l.drop n)]
        · exact List.take_append_drop n l
        · have : l ≠ [] := fun hc => he (by simp [hc])
          have : 0 < l.length := List.length_pos.mpr this
          simp only [List.length_drop]
          omega

theorem chunked_flatten {α : Type} (n : Nat) (hn : 0 < n) (l : List α) :
    (chunked l n).flatten = l :=
  chunkedAux_flatten n hn (l.length + 1) l (Nat.lt_succ_self _)

theorem foldl_groupRow (m : List (Int × List (String × Json)))
    (rows : List (List (String × Json))) :
    ∀ (g : Int → List Json) (s : Int),
      (rows.foldl (groupRow m) g) s =
        g s ++ (rows.filter (fun r => rowSku r = some s)).map
          (fun r => compact_row r (metaGet m s)) := by
  induction rows with
  | nil => intro g s; simp
  | cons r tl ih =>
      intro g s
      rw [List.foldl_cons, ih]
      cases hr : rowSku r with
      | none =>
          have hni : groupRow m g r = g := by
            unfold groupRow
            rw [hr]
          have hf : (rowSku r = some s) = False := by simp [hr]
          simp [List.filter_cons, hf, hni]
      | some k =>
          have hgi : groupRow m g r =
              fun t => if t = k then g t ++ [compact_row r (metaGet m k)]
                else g t := by
            unfold groupRow
            rw [hr]
          by_cases hks : k = s
          · subst hks
            simp [hgi, List.filter_cons, hr, List.append_assoc]
          · have hsk : ¬ s = k := fun hc => hks hc.symm
            simp [hgi, List.filter_cons, hr, hks, hsk]

/-- C5.  For every metadata map, requested batch without duplicate SKUs,
and fetched stock rows: the batch's output objects are exactly one object
per requested SKU, in batch order, each carrying the compacted group of
rows whose reported SKU parses to it — the empty list when no row
matches — and each requested SKU's decimal string appears on exactly one
output object. -/
theorem export_batch_each_sku_once (m : List (Int × List (String × Json)))
    (batch : List Int) (rows : List (List (String × Json)))
    (hnd : batch.Nodup) :
    exportBatch m batch rows =
      batch.map (fun s => Json.obj [("sku", .str (intStr s)),
        ("items", .arr ((rows.filter (fun r => rowSku r = some s)).map
          (fun r => compact_row r (metaGet m s))))])
    ∧ ∀ s ∈ batch,
        (exportBatch m batch rows).countP
          (fun o => objSkuStr o == intStr s) = 1 := by
  have hmap : exportBatch m batch rows =
      batch.map (fun s => Json.obj [("sku", .str (intStr s)),
        ("items", .arr ((rows.filter (fun r => rowSku r = some s)).map
          (fun r => compact_row r (metaGet m s))))]) := by
    unfold exportBatch
    refine List.map_congr_left ?_
    intro s _
    rw [foldl_groupRow]
    rw [List.nil_append]
  refine ⟨hmap, ?_⟩
  intro s hs
  rw [hmap, List.countP_map]
  have hp : ∀ x ∈ batch,
      ((fun o => objSkuStr o == intStr s) ∘
        (fun t => Json.obj [("sku", .str (intStr t)),
          ("items", .arr ((rows.filter (fun r => rowSku r = some t)).map
            (fun r => compact_row r (metaGet m t))))])) x = (x == s) := by
    intro x _
    show (objSkuStr (Json.obj [("sku", .str (intStr x)), _]) == intStr s)
      = (x == s)
    have : objSkuStr (Json.obj [("sku", .str (intStr x)),
        ("items", .arr ((rows.filter (fun r => rowSku r = some x)).map
          (fun r => compact_row r (metaGet m x))))]) = intStr x := rfl
    rw [this]
    by_cases hxs : x = s
    · subst hxs
      simp
    · have : intStr x ≠ intStr s := fun hc => hxs (intStr_injective hc)
      simp [hxs, this]
  calc (batch.countP ((fun o => objSkuStr o == intStr s) ∘ _))
      = batch.countP (· == s) := List.countP_congr (by
          intro x hx
          rw [hp x hx])
    _ = batch.count s := rfl
    _ = 1 := List.count_eq_one_of_mem hnd hs

/-- C5, witness (the spec's end-to-end scenario): batch [111, 222], one
returned row for SKU 111 with counts (2, 1) and none for 222 — the
output is `{"sku":"111","items":[{..,"stock":3}]}` then
`{"sku":"222","items":[]}`, and "222" appears exactly once. -/
theorem export_batch_each_sku_once_witness :
    exportBatch [] [111, 222]
        [[("sku", .num 111), ("available_stock_count", .num 2),
          ("valid_stock_count", .num 1)]] =
      [.obj [("sku", .str "111"),
             ("items", .arr [.obj [("sku", .num 111), ("name", .null),
               ("offer_id", .null), ("warehouse_id", .null),
               ("warehouse_name", .null), ("cluster_id", .null),
               ("cluster_name", .null), ("stock", .num 3)]])],
       .obj [("sku", .str "222"), ("items", .arr [])]]
    ∧ (exportBatch [] [111, 222]
        [[("sku", .num 111), ("available_stock_count", .num 2),
          ("valid_stock_count", .num 1)]]).countP
        (fun o => objSkuStr o == intStr 222) = 1 :=
  ⟨(export_batch_each_sku_once [] [111, 222]
      [[("sku", .num 111), ("available_stock_count", .num 2),
        ("valid_stock_count", .num 1)]] (by decide)).1.trans (by decide),
   (export_batch_each_sku_once [] [111, 222]
      [[("sku", .num 111), ("available_stock_count", .num 2),
        ("valid_stock_count", .num 1)]] (by decide)).2 222 (by decide)⟩

/-- C10.  With distinct metadata keys (a Python dict invariant) and a
positive chunk size, the per-SKU objects of the compact stock export
carry, in file order, exactly the decimal strings of the sorted SKU list:
that list is strictly increasing and is a permutation of the metadata
keys, so every derived SKU occurs exactly once, in increasing numeric
order, serialized as its decimal string. -/
theorem export_stocks_compact_ordered (m : List (Int × List (String × Json)))
    (fetch : List Int → List (List (String × Json))) (c : Nat)
    (hc : 0 < c) (hnd : (m.map Prod.fst).Nodup) :
    (exportStocksObjs m fetch c).map objSkuStr =
      ((m.map Prod.fst).insertionSort (· ≤ ·)).map intStr
    ∧ List.Pairwise (· < ·) ((m.map Prod.fst).insertionSort (· ≤ ·))
    ∧ ((m.map Prod.fst).insertionSort (· ≤ ·)).Perm (m.map Prod.fst) := by
  refine ⟨?_, ?_, List.perm_insertionSort _ _⟩
  · unfold exportStocksObjs
    rw [List.map_flatten, List.map_map]
    have hb : ∀ b rows, (exportBatch m b rows).map objSkuStr = b.map intStr := by
      intro b rows
      unfold exportBatch
      rw [List.map_map]
      rfl
    have : ((chunked ((m.map Prod.fst).insertionSort (· ≤ ·)) c).map
        (List.map objSkuStr ∘ fun b => exportBatch m b (fetch b))) =
        ((chunked ((m.map Prod.fst).insertionSort (· ≤ ·)) c).map
          (fun b => b.map intStr)) := by
      refine List.map_congr_left ?_
      intro b _
      exact hb b (fetch b)
    rw [this, ← List.map_flatten, chunked_flatten c hc]
  · have hsorted : List.Sorted (· ≤ ·)
        ((m.map Prod.fst).insertionSort (· ≤ ·)) :=
      List.sorted_insertionSort _ _
    have hnd2 : ((m.map Prod.fst).insertionSort (· ≤ ·)).Nodup :=
      ((List.perm_insertionSort _ _).nodup_iff).mpr hnd
    exact hsorted.lt_of_le hnd2

/-- C10, witness: metadata keys [300, 5, 42] with chunk size 2 export
objects whose sku strings are "5", "42", "300" — sorted, strictly
increasing, once each. -/
theorem export_stocks_compact_ordered_witness :
    (exportStocksObjs [(300, []), (5, []), (42, [])] (fun _ => []) 2).map
        objSkuStr = ["5", "42", "300"]
    ∧ List.Pairwise (· < ·)
        (([300, 5, 42] : List Int).insertionSort (· ≤ ·)) :=
  ⟨((export_stocks_compact_ordered [(300, []), (5, []), (42, [])]
      (fun _ => []) 2 (by decide) (by decide)).1).trans (by decide),
   (export_stocks_compact_ordered [(300, []), (5, []), (42, [])]
      (fun _ => []) 2 (by decide) (by decide)).2.1⟩

/-! ### Claim C1: shape of the written export documents -/

/-- Whether a JSON document consists of exactly one top-level key. -/
def isSingleKeyObj : Json → Bool
  | .obj [_] => true
  | _ => false

/-- The document `export_products_to_json` passes to `json.dump`:
`{"товары": товары}`. -/
def productsDoc (rows : List Json) : Json := .obj [("товары", .arr rows)]

/-- The document `export_characteristics_ozon` passes to `json.dump`:
`{"характеристики_ozon": rows}`. -/
def characteristicsDoc (rows : List Json) : Json :=
  .obj [("характеристики_ozon", .arr rows)]

/-- The document `fbo_clusters.main` dumps to `регионы_ozon.json`:
`{"регион_ozon": regions}`. -/
def regionsDoc (regions : List Json) : Json :=
  .obj [("регион_ozon", .arr regions)]

/-- The document `fbo_clusters.main` dumps to `склады_ozon.json`:
`{"склады_ozon": warehouses}`. -/
def warehousesDoc (rows : List Json) : Json :=
  .obj [("склады_ozon", .arr rows)]

/-- The diagnostic document `extract_clusters` dumps to
`ozon_clusters_extracted.json`: two top-level keys. -/
def clustersExtractedDoc (path : String) (n : Int) : Json :=
  .obj [("extracted_from", .str path), ("clusters_count", .num n)]

/-- C1, counterexample.  The compact per-SKU stock export is a bare
top-level JSON array, not an object with one key naming the table: on
metadata `{111: {}}` and an empty stock response the written document is
`[{"sku": "111", "items": []}]`.  (`ozon_clusters_extracted.json` also
fails the claim, carrying two top-level keys.) -/
theorem export_stocks_compact_not_single_key :
    export_stocks_compact [(111, [])] (fun _ => []) 99 =
      .arr [.obj [("sku", .str "111"), ("items", .arr [])]]
    ∧ isSingleKeyObj (export_stocks_compact [(111, [])] (fun _ => []) 99)
        = false
    ∧ isSingleKeyObj (clustersExtractedDoc "result" 3) = false := by
  refine ⟨by decide, by decide, by decide⟩

/-- C1, amended.  The four table exports written through `json.dump`
(`товары`, `характеристики_ozon`, `регион_ozon`, `склады_ozon`) are
JSON documents with exactly one top-level key naming the table, wrapping
the ordered record list; the compact per-SKU stock export instead writes
a bare top-level JSON array of the per-SKU records, with no wrapping
key. -/
theorem export_docs_shape (rows regions whs chars : List Json)
    (m : List (Int × List (String × Json)))
    (fetch : List Int → List (List (String × Json))) (c : Nat) :
    isSingleKeyObj (productsDoc rows) = true
    ∧ productsDoc rows = .obj [("товары", .arr rows)]
    ∧ isSingleKeyObj (characteristicsDoc chars) = true
    ∧ isSingleKeyObj (regionsDoc regions) = true
    ∧ isSingleKeyObj (warehousesDoc whs) = true
    ∧ export_stocks_compact m fetch c = .arr (exportStocksObjs m fetch c)
    ∧ isSingleKeyObj (export_stocks_compact m fetch c) = false := by
  refine ⟨rfl, rfl, rfl, rfl, rfl, rfl, rfl⟩

/-! ### Claim C8: regions and warehouses (`fbo_clusters.py`) -/

/-- `fbo_clusters.pick(d, *keys)`: the value of the first key that is
present with a value not equal to `None`, `""` or `[]`. -/
def pick (d : List (String × Json)) (keys : List String) : Option Json :=
  match keys with
  | [] => none
  | k :: tl =>
      if Json.pyMem d k ∧ Json.pyGet d k ≠ .null ∧ Json.pyGet d k ≠ .str ""
          ∧ Json.pyGet d k ≠ .arr [] then some (Json.pyGet d k)
      else pick d tl

/-- Python `sub in s` on character lists. -/
def containsSub (s sub : List Char) : Bool :=
  match s with
  | [] => sub.isEmpty
  | c :: tl => sub.isPrefixOf (c :: tl) || containsSub tl sub

/-- Python `sub in s` on strings. -/
def strContains (s sub : String) : Bool := containsSub s.data sub.data

/-- `isinstance(x, (int, str))` (Python `bool` is a subclass of `int`). -/
def isIntOrStr : Json → Bool
  | .num _ => true
  | .str _ => true
  | .bool _ => true
  | _ => false

/-- The `(warehouse_id, warehouse_name)` pair `collect_warehouse_refs`
extracts from one dict of a list of warehouse records. -/
def refOfDict : Json → Option String × Option String
  | .obj kvs =>
      ((pick kvs ["warehouse_id", "id", "warehouseId"]).map pyStr,
       (pick kvs ["name", "warehouse_name", "title", "warehouseName"]).map pyStr)
  | _ => (none, none)

mutual

/-- `collect_warehouse_refs.walk`: collect `(id, name)` references from
every list-valued field whose key contains "warehouse". -/
def cwWalk : Json → List (Option String × Option String)
  | .obj kvs => cwWalkKVs kvs
  | .arr xs => cwWalkList xs
  | _ => []
termination_by j => 2 * sizeOf j

/-- The dict case of `collect_warehouse_refs.walk`: a list value under a
"warehouse"-containing key is consumed by `addFromList`; every other
value is walked. -/
def cwWalkKVs : List (String × Json) → List (Option String × Option String)
  | [] => []
  | (k, v) :: tl =>
      (match v with
       | .arr xs =>
           if strContains (pyLower k) "warehouse" then addFromList xs
           else cwWalkList xs
       | .obj kvs2 => cwWalkKVs kvs2
       | _ => []) ++ cwWalkKVs tl
termination_by kvs => 2 * sizeOf kvs

/-- The list case of `collect_warehouse_refs.walk`. -/
def cwWalkList : List Json → List (Option String × Option String)
  | [] => []
  | x :: tl => cwWalk x ++ cwWalkList tl
termination_by xs => 2 * sizeOf xs

/-- `collect_warehouse_refs.add_from_list`: a nonempty list of dicts
yields one reference per record, a nonempty list of scalars yields bare
identifiers, anything else is walked recursively. -/
def addFromList (lst : List Json) : List (Option String × Option String) :=
  if !lst.isEmpty && lst.all Json.isDict then lst.map refOfDict
  else if !lst.isEmpty && lst.all isIntOrStr then
    lst.map (fun x => (some (pyStr x), none))
  else cwWalkList lst
termination_by 2 * sizeOf lst + 1

end

/-- `collect_warehouse_refs(node)` on a cluster record. -/
def collect_warehouse_refs (node : List (String × Json)) :
    List (Option String × Option String) :=
  cwWalkKVs node

/-- A region row of `build_regions`: `{"id": rid, "Регион": name,
"id_cluster_ozon": int(cid) if str(cid).isdigit() else cid}`. -/
structure Region where
  id : Nat
  name : Option Json
  idClusterOzon : Json
deriving DecidableEq

/-- `int(cid) if str(cid).isdigit() else cid`. -/
def cidExport (cid : Json) : Json :=
  if pyIsdigit (pyStr cid) then .num (digitsVal (pyStr cid).data) else cid

/-- Lookup in the cluster-id → region-id dict. -/
def ridLookup (m : List (String × Nat)) (k : String) : Option Nat :=
  match m with
  | [] => none
  | (k2, v) :: tl => if k2 = k then some v else ridLookup tl k

/-- The loop of `build_regions`, threading the dict and the `next_id`
counter (dict insertion modelled by appending; keys are inserted at most
once, so first-match lookup agrees with the Python dict). -/
def buildRegionsGo (cs : List (List (String × Json)))
    (m : List (String × Nat)) (nextId : Nat) :
    List Region × List (String × Nat) :=
  match cs with
  | [] => ([], m)
  | c :: tl =>
      match pick c ["cluster_id", "id"] with
      | none => buildRegionsGo tl m nextId
      | some cid =>
          match ridLookup m (pyStr cid) with
          | some _ => buildRegionsGo tl m nextId
          | none =>
              let res := buildRegionsGo tl (m ++ [(pyStr cid, nextId)])
                (nextId + 1)
              (⟨nextId, pick c ["cluster_name", "name", "title"],
                cidExport cid⟩ :: res.1, res.2)

/-- `fbo_clusters.build_regions(clusters)`: the region table and the
cluster-id → local-region-id assignment, local ids 1-based in first-seen
order. -/
def build_regions (clusters : List (List (String × Json))) :
    List Region × List (String × Nat) :=
  buildRegionsGo clusters [] 1

/-- A warehouse row of `build_warehouses`: `{"id": None, "Склад": name,
"idРегион": rid, "warehouse_id_ozon": wid}` (the constant `"id": None`
field is not modelled). -/
structure WhRow where
  name : String
  rid : Nat
  wid : Option String
deriving DecidableEq

/-- The dedup key of a warehouse row: `(rid, wid or nm)` with Python
falsiness of `None` and `""`. -/
def rowKey (r : WhRow) : Nat × String :=
  (r.rid, match r.wid with
          | some w => if w = "" then r.name else w
          | none => r.name)

/-- Lookup in the warehouse directory map. -/
def ridLookupStr (m : List (String × String)) (k : String) : Option String :=
  match m with
  | [] => none
  | (k2, v) :: tl => if k2 = k then some v else ridLookupStr tl k

/-- The name-enrichment step: when the reference has no (or an empty)
name but an identifier found in the warehouse directory, take the
directory's name. -/
def enrichName (whMap : List (String × String)) (wid nm : Option String) :
    Option String :=
  match wid with
  | some w =>
      if nm = none ∨ nm = some "" then
        match ridLookupStr whMap w with
        | some n2 => some n2
        | none => nm
      else nm
  | none => nm

/-- The row a single warehouse reference contributes before
deduplication: absent when no name resolves even after enrichment. -/
def refRow (whMap : List (String × String)) (rid : Nat)
    (ref : Option String × Option String) : Option WhRow :=
  match enrichName whMap ref.1 ref.2 with
  | some nmv => if nmv ≠ "" then some ⟨nmv, rid, ref.1⟩ else none
  | none => none

/-- The `seen`-set loop over one cluster's references: emit a row for
each reference whose name resolves and whose key is new. -/
def processRefs (whMap : List (String × String)) (rid : Nat) :
    List (Option String × Option String) → List (Nat × String) →
    List WhRow × List (Nat × String)
  | [], seen => ([], seen)
  | ref :: tl, seen =>
      match refRow whMap rid ref with
      | none => processRefs whMap rid tl seen
      | some row =>
          if rowKey row ∈ seen then processRefs whMap rid tl seen
          else
            let res := processRefs whMap rid tl (rowKey row :: seen)
            (row :: res.1, res.2)

/-- The outer loop of `build_warehouses`: resolve each cluster's region,
collect its warehouse references, and fold them through the shared
`seen` set. -/
def buildWarehousesGo (whMap : List (String × String))
    (m : List (String × Nat)) :
    List (List (String × Json)) → List (Nat × String) → List WhRow
  | [], _ => []
  | c :: tl, seen =>
      match pick c ["cluster_id", "id"] with
      | none => buildWarehousesGo whMap m tl seen
      | some cid =>
          match ridLookup m (pyStr cid) with
          | none => buildWarehousesGo whMap m tl seen
          | some rid =>
              let res := processRefs whMap rid (cwWalkKVs c) seen
              res.1 ++ buildWarehousesGo whMap m tl res.2

/-- `fbo_clusters.build_warehouses(clusters, map_cluster_to_region_id,
warehouse_map)`. -/
def build_warehouses (clusters : List (List (String × Json)))
    (m : List (String × Nat)) (whMap : List (String × String)) :
    List WhRow :=
  buildWarehousesGo whMap m clusters []

/-- Follows the spec's words ("Deduplication key is the pair (region
local id, warehouse identifier-or-name-if-no-id); first occurrence
wins"): keep the first row per key, given the set of keys already
taken. -/
def dedupByKey : List WhRow → List (Nat × String) → List WhRow
  | [], _ => []
  | r :: tl, seen =>
      if rowKey r ∈ seen then dedupByKey tl seen
      else r :: dedupByKey tl (rowKey r :: seen)

/-- The key set after `dedupByKey`. -/
def dedupSeen : List WhRow → List (Nat × String) → List (Nat × String)
  | [], seen => seen
  | r :: tl, seen =>
      if rowKey r ∈ seen then dedupSeen tl seen
      else dedupSeen tl (rowKey r :: seen)

/-- The candidate warehouse rows before deduplication, in traversal
order: for each cluster with a region assignment, the rows of its
name-resolved references. -/
def rawWhRows (whMap : List (String × String)) (m : List (String × Nat)) :
    List (List (String × Json)) → List WhRow
  | [] => []
  | c :: tl =>
      (match pick c ["cluster_id", "id"] with
       | none => []
       | some cid =>
           match ridLookup m (pyStr cid) with
           | none => []
           | some rid => (cwWalkKVs c).filterMap (refRow whMap rid))
      ++ rawWhRows whMap m tl

theorem processRefs_eq (whMap : List (String × String)) (rid : Nat) :
    ∀ (refs : List (Option String × Option String))
      (seen : List (Nat × String)),
      processRefs whMap rid refs seen =
        (dedupByKey (refs.filterMap (refRow whMap rid)) seen,
         dedupSeen (refs.filterMap (refRow whMap rid)) seen) := by
  intro refs
  induction refs with
  | nil => intro seen; rfl
  | cons ref tl ih =>
      intro seen
      rw [processRefs, List.filterMap_cons]
      cases hr : refRow whMap rid ref with
      | none => exact ih seen
      | some row =>
          rw [dedupByKey, dedupSeen]
          by_cases hs : rowKey row ∈ seen
          · simp only [hs, if_true]
            exact ih seen
          · simp only [hs, if_false]
            rw [ih (rowKey row :: seen)]

theorem dedupByKey_append (xs ys : List WhRow) :
    ∀ seen, dedupByKey (xs ++ ys) seen =
      dedupByKey xs seen ++ dedupByKey ys (dedupSeen xs seen) := by
  induction xs with
  | nil => intro seen; rfl
  | cons x tl ih =>
      intro seen
      rw [List.cons_append, dedupByKey, dedupByKey, dedupSeen]
      by_cases hs : rowKey x ∈ seen
      · simp only [hs, if_true]
        exact ih seen
      · simp only [hs, if_false, List.cons_append]
        rw [ih (rowKey x :: seen)]

theorem dedupSeen_append (xs ys : List WhRow) :
    ∀ seen, dedupSeen (xs ++ ys) seen =
      dedupSeen ys (dedupSeen xs seen) := by
  induction xs with
  | nil => intro seen; rfl
  | cons x tl ih =>
      intro seen
      rw [List.cons_append, dedupSeen, dedupSeen]
      by_cases hs : rowKey x ∈ seen
      · simp only [hs, if_true]
        exact ih seen
      · simp only [hs, if_false]
        rw [ih (rowKey x :: seen)]

theorem buildWarehousesGo_eq (whMap : List (String × String))
    (m : List (String × Nat)) :
    ∀ (cs : List (List (String × Json))) (seen : List (Nat × String)),
      buildWarehousesGo whMap m cs seen =
        dedupByKey (rawWhRows whMap m cs) seen := by
  intro cs
  induction cs with
  | nil => intro seen; rfl
  | cons c tl ih =>
      intro seen
      cases hp : pick c ["cluster_id", "id"] with
      | none =>
          simp only [buildWarehousesGo, rawWhRows, hp, List.nil_append]
          exact ih seen
      | some cid =>
          cases hl : ridLookup m (pyStr cid) with
          | none =>
              simp only [buildWarehousesGo, rawWhRows, hp, hl, List.nil_append]
              exact ih seen
          | some rid =>
              simp only [buildWarehousesGo, rawWhRows, hp, hl]
              rw [processRefs_eq, dedupByKey_append, ih]

theorem dedupByKey_mem (rows : List WhRow) :
    ∀ seen r, r ∈ dedupByKey rows seen → r ∈ rows := by
  induction rows with
  | nil => intro seen r hr; cases hr
  | cons x tl ih =>
      intro seen r hr
      rw [dedupByKey] at hr
      by_cases hs : rowKey x ∈ seen
      · simp only [hs, if_true] at hr
        exact List.mem_cons_of_mem _ (ih seen r hr)
      · simp only [hs, if_false, List.mem_cons] at hr
        rcases hr with hr | hr
        · exact hr ▸ List.mem_cons_self _ _
        · exact List.mem_cons_of_mem _ (ih _ r hr)

theorem dedupByKey_not_seen (rows : List WhRow) :
    ∀ seen k, k ∈ (dedupByKey rows seen).map rowKey → k ∉ seen := by
  induction rows with
  | nil => intro seen k hk; cases hk
  | cons x tl ih =>
      intro seen k hk
      rw [dedupByKey] at hk
      by_cases hs : rowKey x ∈ seen
      · simp only [hs, if_true] at hk
        exact ih seen k hk
      · simp only [hs, if_false, List.map_cons, List.mem_cons] at hk
        rcases hk with hk | hk
        · exact hk ▸ hs
        · intro hc
          exact ih _ k hk (List.mem_cons_of_mem _ hc)

theorem dedupByKey_keys_nodup (rows : List WhRow) :
    ∀ seen, ((dedupByKey rows seen).map rowKey).Nodup := by
  induction rows with
  | nil => intro seen; exact List.nodup_nil
  | cons x tl ih =>
      intro seen
      rw [dedupByKey]
      by_cases hs : rowKey x ∈ seen
      · simp only [hs, if_true]
        exact ih seen
      · simp only [hs, if_false, List.map_cons]
        refine List.nodup_cons.mpr ⟨?_, ih _⟩
        intro hc
        exact dedupByKey_not_seen tl _ _ hc (List.mem_cons_self _ _)

theorem refRow_some (whMap : List (String × String)) (rid : Nat)
    (ref : Option String × Option String) (row : WhRow)
    (h : refRow whMap rid ref = some row) :
    row.name ≠ "" ∧ row.rid = rid := by
  unfold refRow at h
  cases he : enrichName whMap ref.1 ref.2 with
  | none =>
      rw [he] at h
      exact Option.noConfusion h
  | some nmv =>
      simp only [he] at h
      by_cases hn : nmv ≠ ""
      · rw [if_pos hn] at h
        cases h
        exact ⟨hn, rfl⟩
      · rw [if_neg hn] at h
        exact Option.noConfusion h

theorem rawWhRows_mem (whMap : List (String × String))
    (m : List (String × Nat)) :
    ∀ (cs : List (List (String × Json))) (r : WhRow),
      r ∈ rawWhRows whMap m cs →
      r.name ≠ "" ∧ ∃ k, ridLookup m k = some r.rid := by
  intro cs
  induction cs with
  | nil => intro r hr; cases hr
  | cons c tl ih =>
      intro r hr
      cases hp : pick c ["cluster_id", "id"] with
      | none =>
          simp only [rawWhRows, hp, List.nil_append] at hr
          exact ih r hr
      | some cid =>
          cases hl : ridLookup m (pyStr cid) with
          | none =>
              simp only [rawWhRows, hp, hl, List.nil_append] at hr
              exact ih r hr
          | some rid =>
              simp only [rawWhRows, hp, hl, List.mem_append] at hr
              rcases hr with hr | hr
              · rcases List.mem_filterMap.mp hr with ⟨ref, _, href⟩
                have := refRow_some whMap rid ref r href
                exact ⟨this.1, ⟨pyStr cid, by rw [hl, this.2]⟩⟩
              · exact ih r hr

theorem ridLookup_append (s : String) (n : Nat) :
    ∀ (m : List (String × Nat)) (k : String) (v : Nat),
      ridLookup (m ++ [(s, n)]) k = some v →
      ridLookup m k = some v ∨ (k = s ∧ v = n) := by
  intro m
  induction m with
  | nil =>
      intro k v h
      rw [List.nil_append, ridLookup] at h
      by_cases hk : s = k
      · simp only [hk, if_true] at h
        cases h
        exact Or.inr ⟨hk.symm, rfl⟩
      · simp only [hk, if_false] at h
        exact Option.noConfusion h
  | cons p tl ih =>
      intro k v h
      obtain ⟨k2, v2⟩ := p
      rw [List.cons_append, ridLookup] at h
      rw [ridLookup]
      by_cases hk : k2 = k
      · simp only [hk, if_true] at h ⊢
        exact Or.inl h
      · simp only [hk, if_false] at h ⊢
        exact ih k v h

theorem buildRegionsGo_lookup :
    ∀ (cs : List (List (String × Json))) (m : List (String × Nat))
      (nid : Nat) (k : String) (v : Nat),
      ridLookup (buildRegionsGo cs m nid).2 k = some v →
      v ∈ (buildRegionsGo cs m nid).1.map Region.id
        ∨ ridLookup m k = some v := by
  intro cs
  induction cs with
  | nil => intro m nid k v h; exact Or.inr h
  | cons c tl ih =>
      intro m nid k v h
      cases hp : pick c ["cluster_id", "id"] with
      | none =>
          simp only [buildRegionsGo, hp] at h ⊢
          exact ih m nid k v h
      | some cid =>
          cases hdup : ridLookup m (pyStr cid) with
          | some v0 =>
              simp only [buildRegionsGo, hp, hdup] at h ⊢
              exact ih m nid k v h
          | none =>
              simp only [buildRegionsGo, hp, hdup] at h ⊢
              rcases ih (m ++ [(pyStr cid, nid)]) (nid + 1) k v h with h2 | h2
              · refine Or.inl ?_
                simp only [List.map_cons, List.mem_cons]
                exact Or.inr h2
              · rcases ridLookup_append (pyStr cid) nid m k v h2 with h3 | h3
                · exact Or.inr h3
                · refine Or.inl ?_
                  simp only [List.map_cons, List.mem_cons]
                  exact Or.inl h3.2

/-- C8.  For every cluster list, region assignment and directory map, the
warehouse table equals the first-occurrence-wins deduplication (by key
`(region local id, warehouse identifier-or-name-if-no-id)`) of the
traversal-ordered candidate rows; its keys carry no duplicate, every row
has a resolved nonempty name (a reference whose name is unresolvable even
after enrichment contributes no candidate row), and with the assignment
produced by `build_regions` every row's region id is a local id of the
region table. -/
theorem build_warehouses_invariants
    (clusters : List (List (String × Json)))
    (whMap : List (String × String)) (m : List (String × Nat)) :
    build_warehouses clusters m whMap =
      dedupByKey (rawWhRows whMap m clusters) []
    ∧ ((build_warehouses clusters m whMap).map rowKey).Nodup
    ∧ (build_warehouses clusters m whMap).all
        (fun r => r.name ≠ "") = true
    ∧ (build_warehouses clusters (build_regions clusters).2 whMap).all
        (fun r => r.rid ∈ (build_regions clusters).1.map Region.id)
        = true := by
  have heq : ∀ m2, build_warehouses clusters m2 whMap =
      dedupByKey (rawWhRows whMap m2 clusters) [] := by
    intro m2
    unfold build_warehouses
    exact buildWarehousesGo_eq whMap m2 clusters []
  refine ⟨heq m, ?_, ?_, ?_⟩
  · rw [heq m]
    exact dedupByKey_keys_nodup _ _
  · rw [heq m]
    rw [List.all_eq_true]
    intro r hr
    have hraw := dedupByKey_mem _ _ r hr
    have := rawWhRows_mem whMap m clusters r hraw
    exact decide_eq_true this.1
  · rw [heq (build_regions clusters).2]
    rw [List.all_eq_true]
    intro r hr
    have hraw := dedupByKey_mem _ _ r hr
    have hmem := rawWhRows_mem whMap (build_regions clusters).2 clusters r hraw
    rcases hmem.2 with ⟨k, hk⟩
    have := buildRegionsGo_lookup clusters [] 1 k r.rid hk
    rcases this with h | h
    · exact decide_eq_true h
    · rw [ridLookup] at h
      exact Option.noConfusion h
